import Mathlib

/-!
# Verification of the LiveSplit.Redfall memory-introspection core

Shallow embedding of `src/unreal.rs` (and the signature-relative address
recovery in `src/lib.rs`). Foreign-process memory is modelled as a record of
partial read functions over 64-bit addresses; addresses are natural numbers
and every arithmetic step the source performs with wrapping semantics is
taken modulo `2 ^ 64`. The interior-mutable offset cache of `UnrealPointer`
becomes explicit state passing: `find_offsets` returns the updated cache
together with an instrumentation record of which path indices were parsed and
which triggered a reflective field lookup, so that "no lookup happens for
index i" is a statable proposition. Loops that walk linked structures in
foreign memory are given an explicit fuel parameter, since the source places
no bound on chain length.
-/

set_option maxRecDepth 4000

namespace Redfall

/-- 64-bit wrapping addition, modelling `Address + u64` arithmetic. -/
def addw (a b : Nat) : Nat := (a + b) % 2 ^ 64

/-- 64-bit wrapping addition of a signed displacement, modelling
`Address + i32` / `Address::add_signed`. -/
def addwi (a : Nat) (d : Int) : Nat := (((a : Int) + d) % (2 : Int) ^ 64).toNat

/-- The foreign process: each reader returns `none` on an unreadable or
unmapped address, mirroring the `Result`-returning reads of the externally
provided process handle. `readPtr` is a pointer-sized read returning an
address, `readBytes a n` reads `n` raw bytes starting at `a`. -/
structure Process where
  readPtr : Nat → Option Nat
  readU16 : Nat → Option Nat
  readU16x2 : Nat → Option (Nat × Nat)
  readU32 : Nat → Option Nat
  readI32 : Nat → Option Int
  readBytes : Nat → Nat → Option (List Nat)

/-- The fixed structural offsets of the target's type-metadata records
(`struct Offsets` in `unreal.rs`). -/
structure Offsets where
  uobject_class : Nat
  uclass_super_field : Nat
  uclass_property_link : Nat
  uproperty_fname : Nat
  uproperty_offset_internal : Nat
  uproperty_property_link_next : Nat

/-- `Offsets::new`, the Redfall-specific constants. -/
def Offsets.new : Offsets :=
  { uobject_class := 0x10
    uclass_super_field := 0x40
    uclass_property_link := 0x50
    uproperty_fname := 0x28
    uproperty_offset_internal := 0x4C
    uproperty_property_link_next := 0x58 }

/-- `struct Module`: pointer width in bytes, the offset table, and the two
resolved anchors. -/
structure Module where
  pointer_size : Nat
  offsets : Offsets
  g_engine : Nat
  fname_base : Nat

/-! ## Signature-relative address recovery (`Module::attach`, `Addresses::init`)

The byte-pattern scanner itself is an external collaborator; what the
repository's code does with a match address is the displacement decoding
below. `resolveRel p P D L` embeds "read a 4-byte signed displacement at
offset `D` past the match `P` and add it to `P + D + L`": in the source this
is `addr + L + process.read::<i32>(addr)` with `addr = g_engine + D`. -/

/-- Displacement decoding at a signature match: `P + D + L + disp`
(with 64-bit wrapping), or `none` when the 4-byte read fails. -/
def resolveRel (p : Process) (P D L : Nat) : Option Nat :=
  match p.readI32 (addw P D) with
  | none => none
  | some disp => some (addwi (addw (addw P D) L) disp)

/-- The GEngine resolution of `Module::attach`: try signature `GENGINE_1`
(displacement at offset 3, trailing length 4), else `GENGINE_2`
(displacement at offset 7, trailing length 8), else fail. The scan results
are inputs, standing for `scan_process_range` on each signature. -/
def resolve_g_engine (p : Process) (scan1 scan2 : Option Nat) : Option Nat :=
  match scan1 with
  | some P => resolveRel p P 3 4
  | none =>
    match scan2 with
    | some P => resolveRel p P 7 8
    | none => none

/-- The FNamePool resolution of `Module::attach`: the first matching
signature of the ordered list wins; their displacement offsets are 5, 13
and 7, each followed by a 4-byte trailing length. -/
def resolve_fname_base (p : Process) (s1 s2 s3 : Option Nat) : Option Nat :=
  match s1 with
  | some P => resolveRel p P 5 4
  | none =>
    match s2 with
    | some P => resolveRel p P 13 4
    | none =>
      match s3 with
      | some P => resolveRel p P 7 4
      | none => none

/-- `Addresses::init` in `lib.rs`: `SIG_GENGINE` match plus 7 is the
displacement field, and the displacement is added to that address plus 8. -/
def addresses_init_g_engine (p : Process) (scan : Option Nat) : Option Nat :=
  match scan with
  | some P => resolveRel p P 7 8
  | none => none

/-! ## Name Resolver (`UProperty::get_fname`) -/

/-- Byte-list view of a Lean string, modelling `str::as_bytes` for the ASCII
field names the repository compares against. -/
def strBytes (s : String) : List Nat := s.toList.map Char.toNat

/-- The effective content of an `ArrayCString`: bytes up to the first NUL. -/
def cstrAsBytes (bs : List Nat) : List Nat := bs.takeWhile (fun b => b != 0)

/-- `ArrayCString::set_len`: writes a terminating NUL at index `len` when it
is in bounds (out-of-bounds `set` is the identity, matching `get_mut`). -/
def cstrSetLen (bs : List Nat) (len : Nat) : List Nat := bs.set len 0

/-- `UProperty::get_fname::<N>`: reads the 16-bit `(index, chunk)` name
handle at `property + uproperty_fname`, reads the chunk base pointer at
`fname_base + pointer_size * (chunk + 2)` (the multiplication is
`wrapping_mul` on `u64`), reads the 16-bit header at `chunk_base + index * 2`,
takes the length as the header shifted right by 6 (the `checked_shr(6)` of
the source never fails on a 16-bit value, so its `unwrap_or_default`
fallback is dead), reads `N` raw bytes past the 2-byte header and truncates
the C string to that length. Any failed read yields `none`. -/
def get_fname (p : Process) (M : Module) (N : Nat) (property : Nat) :
    Option (List Nat) :=
  match p.readU16x2 (addw property M.offsets.uproperty_fname) with
  | none => none
  | some (name_offset, chunk_offset) =>
    match p.readPtr (addw M.fname_base
        (M.pointer_size * (chunk_offset + 2) % 2 ^ 64)) with
    | none => none
    | some chunk_base =>
      match p.readU16 (addw chunk_base (name_offset * 2 % 2 ^ 64)) with
      | none => none
      | some header =>
        match p.readBytes (addw (addw chunk_base (name_offset * 2 % 2 ^ 64)) 2) N with
        | none => none
        | some bs => some (cstrAsBytes (cstrSetLen bs (header >>> 6)))

/-! ## Reflective Walker (`UObject`, `UClass`, `UProperty`) -/

/-- `UObject::get_uclass`: pointer read at `object + uobject_class`;
null or failure is `none`. -/
def get_uclass (p : Process) (M : Module) (object : Nat) : Option Nat :=
  match p.readPtr (addw object M.offsets.uobject_class) with
  | none => none
  | some 0 => none
  | some v => some v

/-- The start-property search of `UClass::properties`: read the class's
`property_link`; on null, follow `super_field` to the parent (stopping at a
null or unreadable parent); on a non-null property, that is the start; on a
read failure, stop with no start. `fuel` bounds the unbounded source loop. -/
def findStart (p : Process) (M : Module) : Nat → Nat → Option Nat
  | 0, _ => none
  | fuel + 1, cl =>
    match p.readPtr (addw cl M.offsets.uclass_property_link) with
    | some 0 =>
      match p.readPtr (addw cl M.offsets.uclass_super_field) with
      | some 0 => none
      | none => none
      | some sup => findStart p M fuel sup
    | some property => some property
    | none => none

/-- The linked-list walk of `UClass::properties`: each step reads the
current property's `property_link_next` before yielding it, so a failed
read drops the current property and ends the sequence; a null next pointer
yields the current property last. -/
def walkProps (p : Process) (M : Module) : Nat → Nat → List Nat
  | 0, _ => []
  | fuel + 1, property =>
    match p.readPtr (addw property M.offsets.uproperty_property_link_next) with
    | none => []
    | some 0 => [property]
    | some nxt => property :: walkProps p M fuel nxt

/-- `UClass::properties` as a list: walk from the start property found by
the fallthrough search, empty when no start is found. -/
def propsList (p : Process) (M : Module) (fuel : Nat) (cl : Nat) : List Nat :=
  match findStart p M fuel cl with
  | none => []
  | some a => walkProps p M fuel a

/-- A parent-class chain as the fallthrough search sees it: each class on
the way has a null first-property pointer and a readable non-null parent
pointer leading to the next. -/
def superChain (p : Process) (M : Module) : Nat → List Nat → Prop
  | _, [] => True
  | c, c2 :: cs =>
    p.readPtr (addw c M.offsets.uclass_property_link) = some 0 ∧
    p.readPtr (addw c M.offsets.uclass_super_field) = some c2 ∧
    c2 ≠ 0 ∧ superChain p M c2 cs

/-- The predicate of the `find` in `UClass::get_field_offset`:
`field.get_fname::<CSTR>(..).is_some_and(|name| name.matches(field_name))`,
with `CSTR = 128`. -/
def nameMatches (p : Process) (M : Module) (property : Nat) (field_name : String) :
    Bool :=
  match get_fname p M 128 property with
  | some bs => bs == strBytes field_name
  | none => false

/-- `UClass::get_field_offset`: first property of the sequence whose decoded
name matches, then its `offset_internal` field (a `u32` read). -/
def UClass.get_field_offset (p : Process) (M : Module) (fuel : Nat) (cl : Nat)
    (field_name : String) : Option Nat :=
  match (propsList p M fuel cl).find? (fun q => nameMatches p M q field_name) with
  | none => none
  | some q => p.readU32 (addw q M.offsets.uproperty_offset_internal)

/-- `UObject::get_field_offset`: class lookup then field lookup. -/
def UObject.get_field_offset (p : Process) (M : Module) (fuel : Nat)
    (object : Nat) (field_name : String) : Option Nat :=
  match get_uclass p M object with
  | none => none
  | some cl => UClass.get_field_offset p M fuel cl field_name

/-! ## Pointer-Path Resolver (`UnrealPointer`) -/

/-- The `RefCell`-held cache: the fixed-capacity offset array and the count
of entries currently valid. -/
structure UnrealPointerCache where
  offsets : List Nat
  resolved_offsets : Nat
  deriving DecidableEq, Repr

/-- `UnrealPointer<CAP>` minus its cache (which is threaded explicitly):
base address, the `CAP` field specifiers, the effective depth, and `CAP`. -/
structure UnrealPointer where
  base_address : Nat
  fields : List String
  depth : Nat
  cap : Nat

/-- `UnrealPointer::new`: the specifier array is the first `cap` entries of
`fields` padded with empty strings (`iter.next().copied().unwrap_or_default()`),
the cache starts zeroed with no resolved offsets, and
`depth = fields.len().min(CAP)`. -/
def UnrealPointer.new (cap : Nat) (base_address : Nat) (fs : List String) :
    UnrealPointer × UnrealPointerCache :=
  ({ base_address := base_address
     fields := (List.range cap).map (fun i => fs.getD i "")
     depth := min fs.length cap
     cap := cap },
   { offsets := List.replicate cap 0, resolved_offsets := 0 })

/-- One literal-specifier parse step of `from_str_radix` accumulation with
`u32` overflow checking. -/
def digitVal (c : Char) : Option Nat :=
  if '0' ≤ c ∧ c ≤ '9' then some (c.toNat - '0'.toNat)
  else if 'a' ≤ c ∧ c ≤ 'z' then some (c.toNat - 'a'.toNat + 10)
  else if 'A' ≤ c ∧ c ≤ 'Z' then some (c.toNat - 'A'.toNat + 10)
  else none

/-- Digit accumulation of `u32::from_str_radix`: fails on a non-digit, a
digit not below the radix, or on exceeding `u32::MAX`. -/
def parseDigits (radix : Nat) : List Char → Nat → Option Nat
  | [], acc => some acc
  | c :: cs, acc =>
    match digitVal c with
    | none => none
    | some d =>
      if d < radix then
        if acc * radix + d < 2 ^ 32 then parseDigits radix cs (acc * radix + d)
        else none
      else none

/-- `u32::from_str_radix` / `str::parse::<u32>`: empty input fails, one
leading plus sign is allowed (but not alone), everything else must be
digits of the radix. A minus sign is not a digit and so fails. -/
def rustParseU32 (radix : Nat) (s : List Char) : Option Nat :=
  match s with
  | [] => none
  | '+' :: rest => if rest.isEmpty then none else parseDigits radix rest 0
  | _ => parseDigits radix s 0

/-- The literal-specifier parse of `find_offsets`:
`strip_prefix("0x")` then hexadecimal, otherwise decimal. -/
def parseOffset (s : String) : Option Nat :=
  match s.toList with
  | '0' :: 'x' :: rest => rustParseU32 16 rest
  | cs => rustParseU32 10 cs

/-- The already-cached-offset re-chase of `find_offsets` step 2: apply each
cached offset as a pointer hop from the base object. -/
def chase (p : Process) (M : Module) : List Nat → Nat → Option Nat
  | [], a => some a
  | o :: os, a =>
    match p.readPtr (addw a o) with
    | none => none
    | some b => chase p M os b

/-- Result of a `find_offsets` call: success flag, the cache as left behind
(the `RefCell` is written through even on failure), and instrumentation:
`parsed` lists the indices whose specifier was examined, `lookups` the
indices for which a reflective field lookup was attempted. -/
structure ResolveResult where
  ok : Bool
  cache : UnrealPointerCache
  parsed : List Nat
  lookups : List Nat

/-- The resolution loop of `find_offsets` (`for i in resolved..depth`):
`n` is the number of remaining specifiers, `i` the current index, `cur` the
current object address. A literal specifier is used directly; otherwise a
reflective lookup runs on the current object. On success the offset is
cached, the resolved count incremented, and the object advanced one hop;
any failure stops the loop with the cache as written so far. -/
def resolveLoop (p : Process) (M : Module) (fuel : Nat) (ptr : UnrealPointer) :
    Nat → Nat → Nat → UnrealPointerCache → ResolveResult
  | 0, _, _, c => ⟨true, c, [], []⟩
  | n + 1, i, cur, c =>
    match parseOffset (ptr.fields.getD i "") with
    | some off =>
      match p.readPtr (addw cur off) with
      | none => ⟨false, ⟨c.offsets.set i off, c.resolved_offsets + 1⟩, [i], []⟩
      | some nxt =>
        let r := resolveLoop p M fuel ptr n (i + 1) nxt
          ⟨c.offsets.set i off, c.resolved_offsets + 1⟩
        ⟨r.ok, r.cache, i :: r.parsed, r.lookups⟩
    | none =>
      match UObject.get_field_offset p M fuel cur (ptr.fields.getD i "") with
      | none => ⟨false, c, [i], [i]⟩
      | some off =>
        match p.readPtr (addw cur off) with
        | none => ⟨false, ⟨c.offsets.set i off, c.resolved_offsets + 1⟩, [i], [i]⟩
        | some nxt =>
          let r := resolveLoop p M fuel ptr n (i + 1) nxt
            ⟨c.offsets.set i off, c.resolved_offsets + 1⟩
          ⟨r.ok, r.cache, i :: r.parsed, i :: r.lookups⟩

/-- `UnrealPointer::find_offsets`: the fast path when the path is already
fully resolved, otherwise read the base pointer, re-chase the already-cached
offsets, and run the resolution loop from `resolved_offsets` to `depth`.
(The source's `0 => read base` arm coincides with the general arm on an
empty cached slice.) -/
def find_offsets (p : Process) (M : Module) (fuel : Nat) (ptr : UnrealPointer)
    (c : UnrealPointerCache) : ResolveResult :=
  if c.resolved_offsets = ptr.depth then ⟨true, c, [], []⟩
  else
    match p.readPtr ptr.base_address with
    | none => ⟨false, c, [], []⟩
    | some base =>
      match chase p M (c.offsets.take c.resolved_offsets) base with
      | none => ⟨false, c, [], []⟩
      | some cur =>
        resolveLoop p M fuel ptr (ptr.depth - c.resolved_offsets)
          c.resolved_offsets cur c

/-- The external `Process::read_pointer_path::<T>` helper as the spec
describes it: every offset but the last is a pointer hop, the last is the
typed read `rd` (which embeds the `CheckedBitPattern` validity check by
returning `none` on an invalid bit pattern); the empty path fails. -/
def readPointerPath {α : Type} (p : Process) (rd : Nat → Option α) :
    List Nat → Nat → Option α
  | [], _ => none
  | [last], a => rd (addw a last)
  | o :: os, a =>
    match p.readPtr (addw a o) with
    | none => none
    | some b => readPointerPath p rd os b

/-- `UnrealPointer::deref::<T>`: resolve, then one chained read from the
base address through the first `depth` cached offsets; any failure is
`none`. The cache state left by the resolution is returned alongside. -/
def deref {α : Type} (p : Process) (M : Module) (fuel : Nat)
    (rd : Nat → Option α) (ptr : UnrealPointer) (c : UnrealPointerCache) :
    Option α × ResolveResult :=
  let r := find_offsets p M fuel ptr c
  if r.ok then
    match p.readPtr ptr.base_address with
    | none => (none, r)
    | some b => (readPointerPath p rd (r.cache.offsets.take ptr.depth) b, r)
  else (none, r)

/-! ## Concrete evaluation scenarios

Small synthetic targets used to exercise the theorems at concrete inputs:
a module with the Redfall offset table, a failing resolution (unreadable
class pointer), a succeeding literal-offset resolution, and a reflective
world with a name pool and a two-property class. -/

/-- A module with the Redfall offsets, 8-byte pointers and a name pool at
address 10000. -/
def MW : Module := ⟨8, Offsets.new, 0, 10000⟩

/-- A process where only the base pointer at 1000 is readable: any
reflective lookup on the pointed-to object fails. -/
def procA : Process :=
  { readPtr := fun a => if a = 1000 then some 2000 else none
    readU16 := fun _ => none
    readU16x2 := fun _ => none
    readU32 := fun _ => none
    readI32 := fun _ => none
    readBytes := fun _ _ => none }

/-- A one-step symbolic pointer path that cannot resolve under `procA`. -/
def ptrA : UnrealPointer := ⟨1000, ["Health"], 1, 1⟩

/-- The freshly initialised cache for a capacity-1 path. -/
def cA : UnrealPointerCache := ⟨[0], 0⟩

/-- A process where the literal path `["0x10"]` from base 1000 resolves:
base 1000 holds 2000, and 2000 + 0x10 holds 3000. -/
def procB : Process :=
  { readPtr := fun a => if a = 1000 then some 2000
      else if a = 2016 then some 3000 else none
    readU16 := fun _ => none
    readU16x2 := fun _ => none
    readU32 := fun _ => none
    readI32 := fun _ => none
    readBytes := fun _ _ => none }

/-- A one-step literal pointer path. -/
def ptrB : UnrealPointer := ⟨1000, ["0x10"], 1, 1⟩

/-- A process exposing only a 4-byte displacement value 20 at address 103
(a signature match at 100 with the field at offset 3). -/
def procD : Process :=
  { readPtr := fun _ => none
    readU16 := fun _ => none
    readU16x2 := fun _ => none
    readU32 := fun _ => none
    readI32 := fun a => if a = 103 then some 20 else none
    readBytes := fun _ _ => none }

/-- The raw pool bytes behind the name entry "Health": six name bytes then
NUL padding up to the 128-byte bounded read. -/
def healthBytes : List Nat := strBytes "Health" ++ List.replicate 122 0

/-- The raw pool bytes behind the name entry "Foo". -/
def fooBytes : List Nat := strBytes "Foo" ++ List.replicate 125 0

/-- A reflective world: name-pool chunk 1 at 20000 holding "Foo" (handle
(10,1)) and "Health" (handle (3,1)); class 400 with property list
[6000 "Foo", 6500 "Health" at offset 0xDC0]; class 100 with a null
first-property pointer whose parent 300 owns the same list head 6000. -/
def procR : Process :=
  { readPtr := fun a =>
      if a = 10024 then some 20000
      else if a = 480 then some 6000
      else if a = 180 then some 0
      else if a = 164 then some 300
      else if a = 380 then some 6000
      else if a = 6088 then some 6500
      else if a = 6588 then some 0
      else none
    readU16 := fun a =>
      if a = 20006 then some 384
      else if a = 20020 then some 192
      else none
    readU16x2 := fun a =>
      if a = 6040 then some (10, 1)
      else if a = 6540 then some (3, 1)
      else none
    readU32 := fun a => if a = 6576 then some 3520 else none
    readI32 := fun _ => none
    readBytes := fun a n =>
      if a = 20008 ∧ n = 128 then some healthBytes
      else if a = 20022 ∧ n = 128 then some fooBytes
      else none }

/-! ## Helper lemmas about the resolution loop -/

theorem getD_set_ne (l : List Nat) (i j v : Nat) (h : i ≠ j) :
    (l.set i v).getD j 0 = l.getD j 0 := by
  simp [List.getD_eq_getElem?_getD, List.getElem?_set_ne h]

theorem getD_set_self (l : List Nat) (i v : Nat) (h : i < l.length) :
    (l.set i v).getD i 0 = v := by
  simp [List.getD_eq_getElem?_getD, List.getElem?_set_eq_of_lt _ h]

/-- Unfolding: exhausted iteration budget. -/
theorem resolveLoop_zero (p : Process) (M : Module) (fuel : Nat)
    (ptr : UnrealPointer) (i cur : Nat) (c : UnrealPointerCache) :
    resolveLoop p M fuel ptr 0 i cur c = ⟨true, c, [], []⟩ := rfl

/-- Unfolding: literal specifier, failing pointer hop. -/
theorem resolveLoop_lit_hop_fail (p : Process) (M : Module) (fuel : Nat)
    (ptr : UnrealPointer) (n i cur : Nat) (c : UnrealPointerCache) (off : Nat)
    (hp : parseOffset (ptr.fields.getD i "") = some off)
    (hr : p.readPtr (addw cur off) = none) :
    resolveLoop p M fuel ptr (n + 1) i cur c =
      ⟨false, ⟨c.offsets.set i off, c.resolved_offsets + 1⟩, [i], []⟩ := by
  simp only [resolveLoop, hp, hr]

/-- Unfolding: literal specifier, successful pointer hop. -/
theorem resolveLoop_lit_ok (p : Process) (M : Module) (fuel : Nat)
    (ptr : UnrealPointer) (n i cur : Nat) (c : UnrealPointerCache) (off nxt : Nat)
    (hp : parseOffset (ptr.fields.getD i "") = some off)
    (hr : p.readPtr (addw cur off) = some nxt) :
    resolveLoop p M fuel ptr (n + 1) i cur c =
      ⟨(resolveLoop p M fuel ptr n (i + 1) nxt
          ⟨c.offsets.set i off, c.resolved_offsets + 1⟩).ok,
       (resolveLoop p M fuel ptr n (i + 1) nxt
          ⟨c.offsets.set i off, c.resolved_offsets + 1⟩).cache,
       i :: (resolveLoop p M fuel ptr n (i + 1) nxt
          ⟨c.offsets.set i off, c.resolved_offsets + 1⟩).parsed,
       (resolveLoop p M fuel ptr n (i + 1) nxt
          ⟨c.offsets.set i off, c.resolved_offsets + 1⟩).lookups⟩ := by
  simp only [resolveLoop, hp, hr]

/-- Unfolding: symbolic specifier, failing reflective lookup. -/
theorem resolveLoop_refl_fail (p : Process) (M : Module) (fuel : Nat)
    (ptr : UnrealPointer) (n i cur : Nat) (c : UnrealPointerCache)
    (hp : parseOffset (ptr.fields.getD i "") = none)
    (hl : UObject.get_field_offset p M fuel cur (ptr.fields.getD i "") = none) :
    resolveLoop p M fuel ptr (n + 1) i cur c = ⟨false, c, [i], [i]⟩ := by
  simp only [resolveLoop, hp, hl]

/-- Unfolding: symbolic specifier, successful lookup, failing hop. -/
theorem resolveLoop_refl_hop_fail (p : Process) (M : Module) (fuel : Nat)
    (ptr : UnrealPointer) (n i cur : Nat) (c : UnrealPointerCache) (off : Nat)
    (hp : parseOffset (ptr.fields.getD i "") = none)
    (hl : UObject.get_field_offset p M fuel cur (ptr.fields.getD i "") = some off)
    (hr : p.readPtr (addw cur off) = none) :
    resolveLoop p M fuel ptr (n + 1) i cur c =
      ⟨false, ⟨c.offsets.set i off, c.resolved_offsets + 1⟩, [i], [i]⟩ := by
  simp only [resolveLoop, hp, hl, hr]

/-- Unfolding: symbolic specifier, successful lookup and hop. -/
theorem resolveLoop_refl_ok (p : Process) (M : Module) (fuel : Nat)
    (ptr : UnrealPointer) (n i cur : Nat) (c : UnrealPointerCache) (off nxt : Nat)
    (hp : parseOffset (ptr.fields.getD i "") = none)
    (hl : UObject.get_field_offset p M fuel cur (ptr.fields.getD i "") = some off)
    (hr : p.readPtr (addw cur off) = some nxt) :
    resolveLoop p M fuel ptr (n + 1) i cur c =
      ⟨(resolveLoop p M fuel ptr n (i + 1) nxt
          ⟨c.offsets.set i off, c.resolved_offsets + 1⟩).ok,
       (resolveLoop p M fuel ptr n (i + 1) nxt
          ⟨c.offsets.set i off, c.resolved_offsets + 1⟩).cache,
       i :: (resolveLoop p M fuel ptr n (i + 1) nxt
          ⟨c.offsets.set i off, c.resolved_offsets + 1⟩).parsed,
       i :: (resolveLoop p M fuel ptr n (i + 1) nxt
          ⟨c.offsets.set i off, c.resolved_offsets + 1⟩).lookups⟩ := by
  simp only [resolveLoop, hp, hl, hr]

/-- The loop never writes a cache slot outside `[i, i + n)`. -/
theorem resolveLoop_offsets_outside (p : Process) (M : Module) (fuel : Nat)
    (ptr : UnrealPointer) (n : Nat) :
    ∀ i cur c j, j < i ∨ i + n ≤ j →
      (resolveLoop p M fuel ptr n i cur c).cache.offsets.getD j 0 =
        c.offsets.getD j 0 := by
  induction n with
  | zero => intro i cur c j h; rfl
  | succ n ih =>
    intro i cur c j h
    have hne : i ≠ j := by omega
    cases hp : parseOffset (ptr.fields.getD i "") with
    | some off =>
      cases hr : p.readPtr (addw cur off) with
      | none =>
        rw [resolveLoop_lit_hop_fail p M fuel ptr n i cur c off hp hr]
        exact getD_set_ne c.offsets i j off hne
      | some nxt =>
        rw [resolveLoop_lit_ok p M fuel ptr n i cur c off nxt hp hr]
        rw [ih (i + 1) nxt ⟨c.offsets.set i off, c.resolved_offsets + 1⟩ j (by omega)]
        exact getD_set_ne c.offsets i j off hne
    | none =>
      cases hl : UObject.get_field_offset p M fuel cur (ptr.fields.getD i "") with
      | none => rw [resolveLoop_refl_fail p M fuel ptr n i cur c hp hl]
      | some off =>
        cases hr : p.readPtr (addw cur off) with
        | none =>
          rw [resolveLoop_refl_hop_fail p M fuel ptr n i cur c off hp hl hr]
          exact getD_set_ne c.offsets i j off hne
        | some nxt =>
          rw [resolveLoop_refl_ok p M fuel ptr n i cur c off nxt hp hl hr]
          rw [ih (i + 1) nxt ⟨c.offsets.set i off, c.resolved_offsets + 1⟩ j (by omega)]
          exact getD_set_ne c.offsets i j off hne

/-- The loop never decreases the resolved count and advances it by at most
one per remaining specifier. -/
theorem resolveLoop_resolved_bounds (p : Process) (M : Module) (fuel : Nat)
    (ptr : UnrealPointer) (n : Nat) :
    ∀ i cur c,
      c.resolved_offsets ≤ (resolveLoop p M fuel ptr n i cur c).cache.resolved_offsets ∧
      (resolveLoop p M fuel ptr n i cur c).cache.resolved_offsets ≤
        c.resolved_offsets + n := by
  induction n with
  | zero => intro i cur c; exact ⟨Nat.le_refl _, by simp [resolveLoop_zero]⟩
  | succ n ih =>
    intro i cur c
    cases hp : parseOffset (ptr.fields.getD i "") with
    | some off =>
      cases hr : p.readPtr (addw cur off) with
      | none =>
        rw [resolveLoop_lit_hop_fail p M fuel ptr n i cur c off hp hr]
        constructor <;> simp
      | some nxt =>
        rw [resolveLoop_lit_ok p M fuel ptr n i cur c off nxt hp hr]
        have := ih (i + 1) nxt ⟨c.offsets.set i off, c.resolved_offsets + 1⟩
        simp only [] at this ⊢
        omega
    | none =>
      cases hl : UObject.get_field_offset p M fuel cur (ptr.fields.getD i "") with
      | none =>
        rw [resolveLoop_refl_fail p M fuel ptr n i cur c hp hl]
        exact ⟨Nat.le_refl _, Nat.le_add_right _ _⟩
      | some off =>
        cases hr : p.readPtr (addw cur off) with
        | none =>
          rw [resolveLoop_refl_hop_fail p M fuel ptr n i cur c off hp hl hr]
          constructor <;> simp
        | some nxt =>
          rw [resolveLoop_refl_ok p M fuel ptr n i cur c off nxt hp hl hr]
          have := ih (i + 1) nxt ⟨c.offsets.set i off, c.resolved_offsets + 1⟩
          simp only [] at this ⊢
          omega

/-- Every index the loop examines (and in particular every index it looks up
reflectively) lies in `[i, i + n)`, and lookups are among the parsed. -/
theorem resolveLoop_indices (p : Process) (M : Module) (fuel : Nat)
    (ptr : UnrealPointer) (n : Nat) :
    ∀ i cur c,
      (∀ x ∈ (resolveLoop p M fuel ptr n i cur c).parsed, i ≤ x ∧ x < i + n) ∧
      (∀ x ∈ (resolveLoop p M fuel ptr n i cur c).lookups, i ≤ x ∧ x < i + n) := by
  induction n with
  | zero => intro i cur c; simp [resolveLoop_zero]
  | succ n ih =>
    intro i cur c
    cases hp : parseOffset (ptr.fields.getD i "") with
    | some off =>
      cases hr : p.readPtr (addw cur off) with
      | none =>
        rw [resolveLoop_lit_hop_fail p M fuel ptr n i cur c off hp hr]
        simp
      | some nxt =>
        rw [resolveLoop_lit_ok p M fuel ptr n i cur c off nxt hp hr]
        have := ih (i + 1) nxt ⟨c.offsets.set i off, c.resolved_offsets + 1⟩
        simp only [] at this ⊢
        constructor
        · intro x hx
          simp only [List.mem_cons] at hx
          rcases hx with rfl | hx
          · omega
          · have := this.1 x hx; omega
        · intro x hx
          have := this.2 x hx; omega
    | none =>
      cases hl : UObject.get_field_offset p M fuel cur (ptr.fields.getD i "") with
      | none =>
        rw [resolveLoop_refl_fail p M fuel ptr n i cur c hp hl]
        simp
      | some off =>
        cases hr : p.readPtr (addw cur off) with
        | none =>
          rw [resolveLoop_refl_hop_fail p M fuel ptr n i cur c off hp hl hr]
          simp
        | some nxt =>
          rw [resolveLoop_refl_ok p M fuel ptr n i cur c off nxt hp hl hr]
          have := ih (i + 1) nxt ⟨c.offsets.set i off, c.resolved_offsets + 1⟩
          simp only [] at this ⊢
          constructor
          · intro x hx
            simp only [List.mem_cons] at hx
            rcases hx with rfl | hx
            · omega
            · have := this.1 x hx; omega
          · intro x hx
            simp only [List.mem_cons] at hx
            rcases hx with rfl | hx
            · omega
            · have := this.2 x hx; omega

/-- A successful loop run resolves exactly its `n` remaining specifiers. -/
theorem resolveLoop_ok_resolved (p : Process) (M : Module) (fuel : Nat)
    (ptr : UnrealPointer) (n : Nat) :
    ∀ i cur c, (resolveLoop p M fuel ptr n i cur c).ok = true →
      (resolveLoop p M fuel ptr n i cur c).cache.resolved_offsets =
        c.resolved_offsets + n := by
  induction n with
  | zero => intro i cur c _; rfl
  | succ n ih =>
    intro i cur c
    cases hp : parseOffset (ptr.fields.getD i "") with
    | some off =>
      cases hr : p.readPtr (addw cur off) with
      | none =>
        rw [resolveLoop_lit_hop_fail p M fuel ptr n i cur c off hp hr]
        intro h; simp at h
      | some nxt =>
        rw [resolveLoop_lit_ok p M fuel ptr n i cur c off nxt hp hr]
        intro h
        have := ih (i + 1) nxt ⟨c.offsets.set i off, c.resolved_offsets + 1⟩ h
        simp only [] at this ⊢
        omega
    | none =>
      cases hl : UObject.get_field_offset p M fuel cur (ptr.fields.getD i "") with
      | none =>
        rw [resolveLoop_refl_fail p M fuel ptr n i cur c hp hl]
        intro h; simp at h
      | some off =>
        cases hr : p.readPtr (addw cur off) with
        | none =>
          rw [resolveLoop_refl_hop_fail p M fuel ptr n i cur c off hp hl hr]
          intro h; simp at h
        | some nxt =>
          rw [resolveLoop_refl_ok p M fuel ptr n i cur c off nxt hp hl hr]
          intro h
          have := ih (i + 1) nxt ⟨c.offsets.set i off, c.resolved_offsets + 1⟩ h
          simp only [] at this ⊢
          omega

/-- The loop preserves the length of the offset array. -/
theorem resolveLoop_offsets_length (p : Process) (M : Module) (fuel : Nat)
    (ptr : UnrealPointer) (n : Nat) :
    ∀ i cur c,
      (resolveLoop p M fuel ptr n i cur c).cache.offsets.length =
        c.offsets.length := by
  induction n with
  | zero => intro i cur c; rfl
  | succ n ih =>
    intro i cur c
    cases hp : parseOffset (ptr.fields.getD i "") with
    | some off =>
      cases hr : p.readPtr (addw cur off) with
      | none =>
        rw [resolveLoop_lit_hop_fail p M fuel ptr n i cur c off hp hr]
        simp
      | some nxt =>
        rw [resolveLoop_lit_ok p M fuel ptr n i cur c off nxt hp hr]
        have := ih (i + 1) nxt ⟨c.offsets.set i off, c.resolved_offsets + 1⟩
        simpa using this
    | none =>
      cases hl : UObject.get_field_offset p M fuel cur (ptr.fields.getD i "") with
      | none => rw [resolveLoop_refl_fail p M fuel ptr n i cur c hp hl]
      | some off =>
        cases hr : p.readPtr (addw cur off) with
        | none =>
          rw [resolveLoop_refl_hop_fail p M fuel ptr n i cur c off hp hl hr]
          simp
        | some nxt =>
          rw [resolveLoop_refl_ok p M fuel ptr n i cur c off nxt hp hl hr]
          have := ih (i + 1) nxt ⟨c.offsets.set i off, c.resolved_offsets + 1⟩
          simpa using this

/-! ## Helper lemmas about `find_offsets` -/

/-- Unfolding: the fully-resolved fast path. -/
theorem find_offsets_fast (p : Process) (M : Module) (fuel : Nat)
    (ptr : UnrealPointer) (c : UnrealPointerCache)
    (h : c.resolved_offsets = ptr.depth) :
    find_offsets p M fuel ptr c = ⟨true, c, [], []⟩ := by
  simp only [find_offsets, if_pos h]

/-- Unfolding: the base-pointer read fails. -/
theorem find_offsets_base_fail (p : Process) (M : Module) (fuel : Nat)
    (ptr : UnrealPointer) (c : UnrealPointerCache)
    (hd : c.resolved_offsets ≠ ptr.depth)
    (hb : p.readPtr ptr.base_address = none) :
    find_offsets p M fuel ptr c = ⟨false, c, [], []⟩ := by
  simp only [find_offsets, if_neg hd, hb]

/-- Unfolding: re-chasing the already-cached offsets fails. -/
theorem find_offsets_chase_fail (p : Process) (M : Module) (fuel : Nat)
    (ptr : UnrealPointer) (c : UnrealPointerCache) (base : Nat)
    (hd : c.resolved_offsets ≠ ptr.depth)
    (hb : p.readPtr ptr.base_address = some base)
    (hc : chase p M (c.offsets.take c.resolved_offsets) base = none) :
    find_offsets p M fuel ptr c = ⟨false, c, [], []⟩ := by
  simp only [find_offsets, if_neg hd, hb, hc]

/-- Unfolding: resolution proceeds with the loop from `resolved_offsets`. -/
theorem find_offsets_eq_loop (p : Process) (M : Module) (fuel : Nat)
    (ptr : UnrealPointer) (c : UnrealPointerCache) (base cur : Nat)
    (hd : c.resolved_offsets ≠ ptr.depth)
    (hb : p.readPtr ptr.base_address = some base)
    (hc : chase p M (c.offsets.take c.resolved_offsets) base = some cur) :
    find_offsets p M fuel ptr c =
      resolveLoop p M fuel ptr (ptr.depth - c.resolved_offsets)
        c.resolved_offsets cur c := by
  simp only [find_offsets, if_neg hd, hb, hc]

/-- The cache facts every `find_offsets` call guarantees: the resolved count
never decreases and never overshoots the depth, slots below the previously
resolved count and at or beyond the depth are untouched, every examined and
every reflectively-looked-up index lies in `[resolved_offsets, depth)`, and
the offset array keeps its length. -/
theorem find_offsets_spec (p : Process) (M : Module) (fuel : Nat)
    (ptr : UnrealPointer) (c : UnrealPointerCache) :
    c.resolved_offsets ≤ (find_offsets p M fuel ptr c).cache.resolved_offsets ∧
    (find_offsets p M fuel ptr c).cache.resolved_offsets ≤
      max c.resolved_offsets ptr.depth ∧
    (∀ j, j < c.resolved_offsets ∨ ptr.depth ≤ j →
      (find_offsets p M fuel ptr c).cache.offsets.getD j 0 = c.offsets.getD j 0) ∧
    (∀ x ∈ (find_offsets p M fuel ptr c).parsed,
      c.resolved_offsets ≤ x ∧ x < ptr.depth) ∧
    (∀ x ∈ (find_offsets p M fuel ptr c).lookups,
      c.resolved_offsets ≤ x ∧ x < ptr.depth) ∧
    (find_offsets p M fuel ptr c).cache.offsets.length = c.offsets.length := by
  by_cases hd : c.resolved_offsets = ptr.depth
  · rw [find_offsets_fast p M fuel ptr c hd]
    refine ⟨Nat.le_refl _, Nat.le_max_left _ _, fun j _ => rfl, ?_, ?_, rfl⟩ <;> simp
  · cases hb : p.readPtr ptr.base_address with
    | none =>
      rw [find_offsets_base_fail p M fuel ptr c hd hb]
      refine ⟨Nat.le_refl _, Nat.le_max_left _ _, fun j _ => rfl, ?_, ?_, rfl⟩ <;> simp
    | some base =>
      cases hc : chase p M (c.offsets.take c.resolved_offsets) base with
      | none =>
        rw [find_offsets_chase_fail p M fuel ptr c base hd hb hc]
        refine ⟨Nat.le_refl _, Nat.le_max_left _ _, fun j _ => rfl, ?_, ?_, rfl⟩ <;> simp
      | some cur =>
        rw [find_offsets_eq_loop p M fuel ptr c base cur hd hb hc]
        rcases Nat.lt_or_ge c.resolved_offsets ptr.depth with hlt | hge
        · have hb1 := resolveLoop_resolved_bounds p M fuel ptr
            (ptr.depth - c.resolved_offsets) c.resolved_offsets cur c
          have hb2 := resolveLoop_indices p M fuel ptr
            (ptr.depth - c.resolved_offsets) c.resolved_offsets cur c
          refine ⟨hb1.1, by omega, ?_, ?_, ?_, ?_⟩
          · intro j hj
            exact resolveLoop_offsets_outside p M fuel ptr
              (ptr.depth - c.resolved_offsets) c.resolved_offsets cur c j (by omega)
          · intro x hx
            have := hb2.1 x hx; omega
          · intro x hx
            have := hb2.2 x hx; omega
          · exact resolveLoop_offsets_length p M fuel ptr
              (ptr.depth - c.resolved_offsets) c.resolved_offsets cur c
        · have hzero : ptr.depth - c.resolved_offsets = 0 := by omega
          rw [hzero, resolveLoop_zero]
          refine ⟨Nat.le_refl _, Nat.le_max_left _ _, fun j _ => rfl, ?_, ?_, rfl⟩ <;> simp

/-- A successful `find_offsets` call (with a well-formed cache) leaves the
path fully resolved. -/
theorem find_offsets_ok_resolved (p : Process) (M : Module) (fuel : Nat)
    (ptr : UnrealPointer) (c : UnrealPointerCache)
    (hwf : c.resolved_offsets ≤ ptr.depth)
    (hok : (find_offsets p M fuel ptr c).ok = true) :
    (find_offsets p M fuel ptr c).cache.resolved_offsets = ptr.depth := by
  by_cases hd : c.resolved_offsets = ptr.depth
  · rw [find_offsets_fast p M fuel ptr c hd]
    exact hd
  · cases hb : p.readPtr ptr.base_address with
    | none => rw [find_offsets_base_fail p M fuel ptr c hd hb] at hok; simp at hok
    | some base =>
      cases hc : chase p M (c.offsets.take c.resolved_offsets) base with
      | none => rw [find_offsets_chase_fail p M fuel ptr c base hd hb hc] at hok; simp at hok
      | some cur =>
        rw [find_offsets_eq_loop p M fuel ptr c base cur hd hb hc] at hok ⊢
        have := resolveLoop_ok_resolved p M fuel ptr
          (ptr.depth - c.resolved_offsets) c.resolved_offsets cur c hok
        omega

/-- `deref` leaves exactly the cache state produced by its `find_offsets`
call (the `RefCell` write-through). -/
theorem deref_snd {α : Type} (p : Process) (M : Module) (fuel : Nat)
    (rd : Nat → Option α) (ptr : UnrealPointer) (c : UnrealPointerCache) :
    (deref p M fuel rd ptr c).2 = find_offsets p M fuel ptr c := by
  simp only [deref]
  split
  · split <;> rfl
  · rfl

/-- Characterization of a successful `deref`: a value comes out exactly when
resolution succeeded, the base read succeeded, and the chained read through
the first `depth` cached offsets succeeded. -/
theorem deref_eq_some_iff {α : Type} (p : Process) (M : Module) (fuel : Nat)
    (rd : Nat → Option α) (ptr : UnrealPointer) (c : UnrealPointerCache) (v : α) :
    (deref p M fuel rd ptr c).1 = some v ↔
      (find_offsets p M fuel ptr c).ok = true ∧
      ∃ b, p.readPtr ptr.base_address = some b ∧
        readPointerPath p rd
          ((find_offsets p M fuel ptr c).cache.offsets.take ptr.depth) b = some v := by
  constructor
  · intro h
    simp only [deref] at h
    by_cases hok : (find_offsets p M fuel ptr c).ok
    · rw [if_pos hok] at h
      cases hb : p.readPtr ptr.base_address with
      | none => rw [hb] at h; simp at h
      | some b =>
        rw [hb] at h
        exact ⟨hok, b, rfl, h⟩
    · rw [if_neg hok] at h
      simp at h
  · rintro ⟨hok, b, hb, hpath⟩
    simp only [deref, if_pos hok, hb]
    exact hpath

/-! ## Claims -/

/-- C1: Resumability of pointer-path resolution: when `find_offsets` fails,
the cached offsets below the previously resolved count are unchanged, the
resolved count is not decreased, no reflective lookup happened for an
already-resolved index, and a subsequent call (on any process) begins at the
prior resolved count: all of its lookups are at or beyond that count and it
leaves the already-resolved slots unchanged. -/
theorem c1_resumable_resolution (p p2 : Process) (M M2 : Module)
    (fuel fuel2 : Nat) (ptr : UnrealPointer) (c : UnrealPointerCache)
    (hfail : (find_offsets p M fuel ptr c).ok = false) :
    c.resolved_offsets ≤ (find_offsets p M fuel ptr c).cache.resolved_offsets ∧
    (∀ j, j < c.resolved_offsets →
      (find_offsets p M fuel ptr c).cache.offsets.getD j 0 = c.offsets.getD j 0) ∧
    (∀ x ∈ (find_offsets p M fuel ptr c).lookups, c.resolved_offsets ≤ x) ∧
    (∀ x ∈ (find_offsets p2 M2 fuel2 ptr (find_offsets p M fuel ptr c).cache).lookups,
      (find_offsets p M fuel ptr c).cache.resolved_offsets ≤ x) ∧
    (∀ j, j < (find_offsets p M fuel ptr c).cache.resolved_offsets →
      (find_offsets p2 M2 fuel2 ptr
          (find_offsets p M fuel ptr c).cache).cache.offsets.getD j 0 =
        (find_offsets p M fuel ptr c).cache.offsets.getD j 0) := by
  obtain ⟨h1, -, h3, -, h5, -⟩ := find_offsets_spec p M fuel ptr c
  obtain ⟨-, -, g3, -, g5, -⟩ :=
    find_offsets_spec p2 M2 fuel2 ptr (find_offsets p M fuel ptr c).cache
  exact ⟨h1, fun j hj => h3 j (Or.inl hj), fun x hx => (h5 x hx).1,
    fun x hx => (g5 x hx).1, fun j hj => g3 j (Or.inl hj)⟩

/-- C2: Cache monotonicity invariant: after construction
`resolved_offsets = 0 ≤ depth = min |fields| CAP ≤ CAP`; `find_offsets` and
`deref` never decrease the resolved count, keep it at most `depth`, and a
single call advances it by at most `depth - resolved_offsets`. -/
theorem c2_cache_monotonicity (cap base : Nat) (fs : List String)
    {α : Type} (p : Process) (M : Module) (fuel : Nat) (rd : Nat → Option α)
    (ptr : UnrealPointer) (c : UnrealPointerCache)
    (hwf : c.resolved_offsets ≤ ptr.depth) :
    (UnrealPointer.new cap base fs).2.resolved_offsets = 0 ∧
    (UnrealPointer.new cap base fs).1.depth = min fs.length cap ∧
    (UnrealPointer.new cap base fs).2.resolved_offsets ≤
      (UnrealPointer.new cap base fs).1.depth ∧
    (UnrealPointer.new cap base fs).1.depth ≤ (UnrealPointer.new cap base fs).1.cap ∧
    c.resolved_offsets ≤ (find_offsets p M fuel ptr c).cache.resolved_offsets ∧
    (find_offsets p M fuel ptr c).cache.resolved_offsets ≤ ptr.depth ∧
    (find_offsets p M fuel ptr c).cache.resolved_offsets - c.resolved_offsets ≤
      ptr.depth - c.resolved_offsets ∧
    c.resolved_offsets ≤ (deref p M fuel rd ptr c).2.cache.resolved_offsets ∧
    (deref p M fuel rd ptr c).2.cache.resolved_offsets ≤ ptr.depth := by
  obtain ⟨h1, h2, -, -, -, -⟩ := find_offsets_spec p M fuel ptr c
  rw [deref_snd p M fuel rd ptr c]
  refine ⟨rfl, rfl, ?_, ?_, h1, by omega, by omega, h1, by omega⟩
  · simp [UnrealPointer.new]
  · simp [UnrealPointer.new]

/-- C8: Idempotent fast path: when the resolved count already equals the
depth, `find_offsets` succeeds with an unchanged cache, no parsed specifier
and no reflective lookup (the result does not depend on the process at all);
consequently after any successful call, a second call — on any process —
succeeds with zero lookups and the identical cache. -/
theorem c8_idempotent_fast_path (p p2 : Process) (M M2 : Module)
    (fuel fuel2 : Nat) (ptr : UnrealPointer) (c : UnrealPointerCache)
    (hwf : c.resolved_offsets ≤ ptr.depth) :
    (c.resolved_offsets = ptr.depth →
      find_offsets p M fuel ptr c = ⟨true, c, [], []⟩) ∧
    ((find_offsets p M fuel ptr c).ok = true →
      find_offsets p2 M2 fuel2 ptr (find_offsets p M fuel ptr c).cache =
        ⟨true, (find_offsets p M fuel ptr c).cache, [], []⟩) := by
  refine ⟨fun h => find_offsets_fast p M fuel ptr c h, fun hok => ?_⟩
  exact find_offsets_fast p2 M2 fuel2 ptr _
    (find_offsets_ok_resolved p M fuel ptr c hwf hok)

/-- C3: Dereference is all-or-nothing: `deref` yields a value exactly when
resolution succeeded, the base pointer read succeeded, and the single
chained read through all `depth` cached offsets (ending in the validity-
checked typed read) succeeded; a failed resolution or a failed base read
always yields `none`. -/
theorem c3_deref_all_or_nothing {α : Type} (p : Process) (M : Module)
    (fuel : Nat) (rd : Nat → Option α) (ptr : UnrealPointer)
    (c : UnrealPointerCache) (v : α) :
    ((deref p M fuel rd ptr c).1 = some v ↔
      (find_offsets p M fuel ptr c).ok = true ∧
      ∃ b, p.readPtr ptr.base_address = some b ∧
        readPointerPath p rd
          ((find_offsets p M fuel ptr c).cache.offsets.take ptr.depth) b = some v) ∧
    ((find_offsets p M fuel ptr c).ok = false → (deref p M fuel rd ptr c).1 = none) ∧
    (p.readPtr ptr.base_address = none → (deref p M fuel rd ptr c).1 = none) := by
  refine ⟨deref_eq_some_iff p M fuel rd ptr c v, fun h => ?_, fun h => ?_⟩
  · simp only [deref, h]
    rw [if_neg (by simp [h])]
  · simp only [deref, h]
    split
    · rfl
    · rfl

/-- C9: Literal specifier parsing: a specifier with the `"0x"` prefix whose
remainder parses as hexadecimal, or one parsing as decimal, is used directly
as the cached offset for its index with no reflective lookup (the index does
not appear in the lookup list); reflective lookup is attempted exactly when
the specifier parses as neither. In particular `"0x570"` parses to `0x570`
and `"1464"` to `1464`. -/
theorem c9_literal_specifier (p : Process) (M : Module) (fuel : Nat)
    (ptr : UnrealPointer) (n i cur : Nat) (c : UnrealPointerCache) (off : Nat)
    (hi : i < c.offsets.length) :
    parseOffset "0x570" = some 0x570 ∧
    parseOffset "1464" = some 1464 ∧
    (parseOffset (ptr.fields.getD i "") = some off →
      (resolveLoop p M fuel ptr (n + 1) i cur c).cache.offsets.getD i 0 = off ∧
      i ∉ (resolveLoop p M fuel ptr (n + 1) i cur c).lookups) ∧
    (parseOffset (ptr.fields.getD i "") = none →
      i ∈ (resolveLoop p M fuel ptr (n + 1) i cur c).lookups) := by
  refine ⟨by decide, by decide, fun hp => ?_, fun hp => ?_⟩
  · cases hr : p.readPtr (addw cur off) with
    | none =>
      rw [resolveLoop_lit_hop_fail p M fuel ptr n i cur c off hp hr]
      exact ⟨getD_set_self c.offsets i off hi, by simp⟩
    | some nxt =>
      rw [resolveLoop_lit_ok p M fuel ptr n i cur c off nxt hp hr]
      constructor
      · rw [resolveLoop_offsets_outside p M fuel ptr n (i + 1) nxt
          ⟨c.offsets.set i off, c.resolved_offsets + 1⟩ i (by omega)]
        exact getD_set_self c.offsets i off hi
      · intro hmem
        have := (resolveLoop_indices p M fuel ptr n (i + 1) nxt
          ⟨c.offsets.set i off, c.resolved_offsets + 1⟩).2 i hmem
        omega
  · cases hl : UObject.get_field_offset p M fuel cur (ptr.fields.getD i "") with
    | none =>
      rw [resolveLoop_refl_fail p M fuel ptr n i cur c hp hl]
      simp
    | some off2 =>
      cases hr : p.readPtr (addw cur off2) with
      | none =>
        rw [resolveLoop_refl_hop_fail p M fuel ptr n i cur c off2 hp hl hr]
        simp
      | some nxt =>
        rw [resolveLoop_refl_ok p M fuel ptr n i cur c off2 nxt hp hl hr]
        simp

/-- C10: Constructor truncation and padding: `new` sets
`depth = min |fields| CAP`, keeps exactly `CAP` specifier slots (the first
`CAP` given specifiers, so later ones are discarded), pads missing slots
with the empty string, and neither resolution (parsed and looked-up indices
all lie below `depth`, slots at or beyond `depth` are never written) nor
dereference (which reads only through the first `depth` cached offsets)
ever touches a padding slot. -/
theorem c10_truncation_and_padding (cap base : Nat) (fs : List String)
    (p : Process) (M : Module) (fuel : Nat) (ptr : UnrealPointer)
    (c : UnrealPointerCache) :
    (UnrealPointer.new cap base fs).1.depth = min fs.length cap ∧
    (UnrealPointer.new cap base fs).1.fields.length = cap ∧
    (∀ k, k < cap →
      (UnrealPointer.new cap base fs).1.fields.getD k "" = fs.getD k "") ∧
    (∀ k, fs.length ≤ k →
      (UnrealPointer.new cap base fs).1.fields.getD k "" = "") ∧
    (∀ x ∈ (find_offsets p M fuel ptr c).parsed, x < ptr.depth) ∧
    (∀ x ∈ (find_offsets p M fuel ptr c).lookups, x < ptr.depth) ∧
    (∀ j, ptr.depth ≤ j →
      (find_offsets p M fuel ptr c).cache.offsets.getD j 0 = c.offsets.getD j 0) ∧
    (∀ {α : Type} (rd : Nat → Option α) (v : α),
      (deref p M fuel rd ptr c).1 = some v →
      ∃ b, p.readPtr ptr.base_address = some b ∧
        readPointerPath p rd
          ((find_offsets p M fuel ptr c).cache.offsets.take ptr.depth) b = some v) := by
  obtain ⟨-, -, h3, h4, h5, -⟩ := find_offsets_spec p M fuel ptr c
  refine ⟨rfl, by simp [UnrealPointer.new], fun k hk => ?_, fun k hk => ?_,
    fun x hx => (h4 x hx).2, fun x hx => (h5 x hx).2,
    fun j hj => h3 j (Or.inr hj), fun rd v hv => ?_⟩
  · simp [UnrealPointer.new, List.getD_eq_getElem?_getD, List.getElem?_range hk]
  · by_cases hcap : k < cap
    · simp [UnrealPointer.new, List.getD_eq_getElem?_getD,
        List.getElem?_range hcap, List.getElem?_eq_none hk]
    · simp [UnrealPointer.new, List.getD_eq_getElem?_getD,
        List.getElem?_eq_none (l := List.range cap)
          (by simpa using Nat.le_of_not_lt hcap)]
  · exact ((deref_eq_some_iff p M fuel rd ptr c v).mp hv).2

/-- In the non-wrapping range, the displacement decoding at a match `P`
with displacement field at offset `D` and trailing length `L` yields
`P + D + disp + L`. -/
theorem resolveRel_eq (p : Process) (P D L : Nat) (disp : Int)
    (hP : P + D + L < 2 ^ 64)
    (hlo : 0 ≤ (P : Int) + D + disp + L)
    (hhi : (P : Int) + D + disp + L < 2 ^ 64)
    (hr : p.readI32 (P + D) = some disp) :
    resolveRel p P D L = some (((P : Int) + D + disp + L).toNat) := by
  have haw : addw P D = P + D := Nat.mod_eq_of_lt (by omega)
  have haw2 : addw (P + D) L = P + D + L := Nat.mod_eq_of_lt (by omega)
  simp only [resolveRel, haw, haw2, hr]
  unfold addwi
  congr 1
  have hcast : ((P + D + L : Nat) : Int) + disp = (P : Int) + D + disp + L := by
    push_cast
    ring
  rw [hcast, Int.emod_eq_of_lt hlo (by exact_mod_cast hhi)]

/-- C5: Text-relative address recovery: for each signature variant, a match
at `P` with the 4-byte signed displacement at fixed offset `D` yields the
absolute address `P + D + disp + L` where `L` is the length of the
instruction bytes trailing the displacement field: `D = 3, L = 4` for the
first GEngine signature, `D = 7, L = 8` for the second (and for the
`Addresses::init` signature in `lib.rs`), and `D ∈ {5, 13, 7}, L = 4` for
the three FNamePool signatures. -/
theorem c5_displacement_recovery (p : Process) (P : Nat) (disp : Int)
    (s2 s3 : Option Nat)
    (hP : P + 21 < 2 ^ 64)
    (hlo : 0 ≤ (P : Int) + disp)
    (hhi : (P : Int) + disp + 21 < 2 ^ 64) :
    (p.readI32 (P + 3) = some disp →
      resolve_g_engine p (some P) s2 = some (((P : Int) + 3 + disp + 4).toNat)) ∧
    (p.readI32 (P + 7) = some disp →
      resolve_g_engine p none (some P) = some (((P : Int) + 7 + disp + 8).toNat)) ∧
    (p.readI32 (P + 5) = some disp →
      resolve_fname_base p (some P) s2 s3 = some (((P : Int) + 5 + disp + 4).toNat)) ∧
    (p.readI32 (P + 13) = some disp →
      resolve_fname_base p none (some P) s3 = some (((P : Int) + 13 + disp + 4).toNat)) ∧
    (p.readI32 (P + 7) = some disp →
      resolve_fname_base p none none (some P) = some (((P : Int) + 7 + disp + 4).toNat)) ∧
    (p.readI32 (P + 7) = some disp →
      addresses_init_g_engine p (some P) = some (((P : Int) + 7 + disp + 8).toNat)) := by
  refine ⟨fun h => ?_, fun h => ?_, fun h => ?_, fun h => ?_, fun h => ?_, fun h => ?_⟩
  · exact resolveRel_eq p P 3 4 disp (by omega) (by omega) (by omega) h
  · exact resolveRel_eq p P 7 8 disp (by omega) (by omega) (by omega) h
  · exact resolveRel_eq p P 5 4 disp (by omega) (by omega) (by omega) h
  · exact resolveRel_eq p P 13 4 disp (by omega) (by omega) (by omega) h
  · exact resolveRel_eq p P 7 4 disp (by omega) (by omega) (by omega) h
  · exact resolveRel_eq p P 7 8 disp (by omega) (by omega) (by omega) h

/-- Truncating the C string written to at its intended length: when the
length is in bounds and none of the kept bytes is NUL, `set_len` followed by
the NUL-scan recovers exactly the first `len` bytes. -/
theorem cstr_set_take (bs : List Nat) (len : Nat) :
    len < bs.length → (∀ b ∈ bs.take len, b ≠ 0) →
    cstrAsBytes (cstrSetLen bs len) = bs.take len := by
  induction bs generalizing len with
  | nil => intro h _; simp at h
  | cons b t ih =>
    intro hlen hnz
    cases len with
    | zero => simp [cstrAsBytes, cstrSetLen]
    | succ len =>
      have hb : b ≠ 0 := hnz b (by simp)
      have ht : ∀ x ∈ t.take len, x ≠ 0 := fun x hx => hnz x (by simp [hx])
      simp only [cstrSetLen, List.set_cons_succ, cstrAsBytes, List.takeWhile_cons,
        List.take_succ_cons]
      rw [if_pos (by simpa using hb)]
      have := ih len (by simpa using hlen) ht
      simp only [cstrAsBytes, cstrSetLen] at this
      rw [this]

/-- C4: Name decoding arithmetic: with the name handle `(index, chunk)`,
`get_fname` reads the chunk base pointer at
`fname_base + pointer_size * (chunk + 2)`, the 16-bit header at
`chunk_base + index * 2`, takes the length as the header shifted right by 6
bits, and returns exactly that many bytes read from 2 bytes past the header
(assuming none of them is NUL, which would truncate the bounded C string);
a failed read at any of the four hops yields `none`. -/
theorem c4_name_decoding (p : Process) (M : Module) (N property index chunk
    chunk_base hdr : Nat) (bs : List Nat)
    (hb1 : property + M.offsets.uproperty_fname < 2 ^ 64)
    (hb2 : M.fname_base + M.pointer_size * (chunk + 2) < 2 ^ 64)
    (hb3 : chunk_base + index * 2 + 2 < 2 ^ 64)
    (h1 : p.readU16x2 (property + M.offsets.uproperty_fname) = some (index, chunk))
    (h2 : p.readPtr (M.fname_base + M.pointer_size * (chunk + 2)) = some chunk_base)
    (h3 : p.readU16 (chunk_base + index * 2) = some hdr)
    (h4 : p.readBytes (chunk_base + index * 2 + 2) N = some bs)
    (hN : hdr >>> 6 < N)
    (hlen : bs.length = N)
    (hnz : ∀ b ∈ bs.take (hdr >>> 6), b ≠ 0) :
    get_fname p M N property = some (bs.take (hdr >>> 6)) ∧
    (bs.take (hdr >>> 6)).length = hdr >>> 6 ∧
    (∀ q, p.readU16x2 (addw q M.offsets.uproperty_fname) = none →
      get_fname p M N q = none) ∧
    (∀ q i2 c2, p.readU16x2 (addw q M.offsets.uproperty_fname) = some (i2, c2) →
      p.readPtr (addw M.fname_base (M.pointer_size * (c2 + 2) % 2 ^ 64)) = none →
      get_fname p M N q = none) ∧
    (∀ q i2 c2 cb2, p.readU16x2 (addw q M.offsets.uproperty_fname) = some (i2, c2) →
      p.readPtr (addw M.fname_base (M.pointer_size * (c2 + 2) % 2 ^ 64)) = some cb2 →
      p.readU16 (addw cb2 (i2 * 2 % 2 ^ 64)) = none →
      get_fname p M N q = none) ∧
    (∀ q i2 c2 cb2 hdr2, p.readU16x2 (addw q M.offsets.uproperty_fname) = some (i2, c2) →
      p.readPtr (addw M.fname_base (M.pointer_size * (c2 + 2) % 2 ^ 64)) = some cb2 →
      p.readU16 (addw cb2 (i2 * 2 % 2 ^ 64)) = some hdr2 →
      p.readBytes (addw (addw cb2 (i2 * 2 % 2 ^ 64)) 2) N = none →
      get_fname p M N q = none) := by
  have e1 : addw property M.offsets.uproperty_fname =
      property + M.offsets.uproperty_fname := Nat.mod_eq_of_lt hb1
  have emul : M.pointer_size * (chunk + 2) % 2 ^ 64 = M.pointer_size * (chunk + 2) :=
    Nat.mod_eq_of_lt (by omega)
  have e2 : addw M.fname_base (M.pointer_size * (chunk + 2)) =
      M.fname_base + M.pointer_size * (chunk + 2) := Nat.mod_eq_of_lt hb2
  have eidx : index * 2 % 2 ^ 64 = index * 2 := Nat.mod_eq_of_lt (by omega)
  have e3 : addw chunk_base (index * 2) = chunk_base + index * 2 :=
    Nat.mod_eq_of_lt (by omega)
  have e4 : addw (chunk_base + index * 2) 2 = chunk_base + index * 2 + 2 :=
    Nat.mod_eq_of_lt (by omega)
  refine ⟨?_, ?_, fun q hq => ?_, fun q i2 c2 hq hcb => ?_,
    fun q i2 c2 cb2 hq hcb hh => ?_, fun q i2 c2 cb2 hdr2 hq hcb hh hbytes => ?_⟩
  · simp only [get_fname, e1, h1, emul, e2, h2, eidx, e3, h3, e4, h4]
    rw [cstr_set_take bs (hdr >>> 6) (by omega) hnz]
  · rw [List.length_take, hlen]
    omega
  · simp only [get_fname, hq]
  · simp only [get_fname, hq, hcb]
  · simp only [get_fname, hq, hcb, hh]
  · simp only [get_fname, hq, hcb, hh, hbytes]

/-- Unfolding: a non-null first-property pointer ends the search. -/
theorem findStart_succ (p : Process) (M : Module) (fuel cl a : Nat)
    (hpl : p.readPtr (addw cl M.offsets.uclass_property_link) = some a)
    (ha : a ≠ 0) :
    findStart p M (fuel + 1) cl = some a := by
  cases a with
  | zero => exact absurd rfl ha
  | succ k => simp [findStart, hpl]

/-- Unfolding: a null first-property pointer with a non-null parent
continues the search at the parent. -/
theorem findStart_succ_super (p : Process) (M : Module) (fuel cl s : Nat)
    (hpl : p.readPtr (addw cl M.offsets.uclass_property_link) = some 0)
    (hsf : p.readPtr (addw cl M.offsets.uclass_super_field) = some s)
    (hs : s ≠ 0) :
    findStart p M (fuel + 1) cl = findStart p M fuel s := by
  cases s with
  | zero => exact absurd rfl hs
  | succ k => simp [findStart, hpl, hsf]

/-- Unfolding: a null first-property pointer with a null parent ends the
search empty-handed. -/
theorem findStart_succ_none (p : Process) (M : Module) (fuel cl : Nat)
    (hpl : p.readPtr (addw cl M.offsets.uclass_property_link) = some 0)
    (hsf : p.readPtr (addw cl M.offsets.uclass_super_field) = some 0) :
    findStart p M (fuel + 1) cl = none := by
  simp [findStart, hpl, hsf]

/-- Walking a parent chain whose last class has a non-null first-property
pointer finds exactly that property. -/
theorem findStart_chain_found (p : Process) (M : Module) :
    ∀ (cs : List Nat) (c fuel a : Nat), superChain p M c cs → cs.length < fuel →
      p.readPtr (addw (cs.getLastD c) M.offsets.uclass_property_link) = some a →
      a ≠ 0 → findStart p M fuel c = some a := by
  intro cs
  induction cs with
  | nil =>
    intro c fuel a _ hfuel ha hne
    obtain ⟨m, rfl⟩ : ∃ m, fuel = m + 1 := ⟨fuel - 1, by omega⟩
    exact findStart_succ p M m c a (by simpa using ha) hne
  | cons c2 cs ih =>
    intro c fuel a hci hfuel ha hne
    obtain ⟨hpl, hsf, hs, hrest⟩ := hci
    obtain ⟨m, rfl⟩ : ∃ m, fuel = m + 1 := ⟨fuel - 1, by omega⟩
    rw [findStart_succ_super p M m c c2 hpl hsf hs]
    refine ih c2 m a hrest (by simp at hfuel ⊢; omega) ?_ hne
    rw [← List.getLastD_cons c c2 cs]
    exact ha

/-- Walking a parent chain that ends in a null first-property pointer and a
null parent pointer finds nothing. -/
theorem findStart_chain_none (p : Process) (M : Module) :
    ∀ (cs : List Nat) (c fuel : Nat), superChain p M c cs → cs.length < fuel →
      p.readPtr (addw (cs.getLastD c) M.offsets.uclass_property_link) = some 0 →
      p.readPtr (addw (cs.getLastD c) M.offsets.uclass_super_field) = some 0 →
      findStart p M fuel c = none := by
  intro cs
  induction cs with
  | nil =>
    intro c fuel _ hfuel h0 hs
    obtain ⟨m, rfl⟩ : ∃ m, fuel = m + 1 := ⟨fuel - 1, by omega⟩
    exact findStart_succ_none p M m c (by simpa using h0) (by simpa using hs)
  | cons c2 cs ih =>
    intro c fuel hci hfuel h0 hs
    obtain ⟨hpl, hsf, hsne, hrest⟩ := hci
    obtain ⟨m, rfl⟩ : ∃ m, fuel = m + 1 := ⟨fuel - 1, by omega⟩
    rw [findStart_succ_super p M m c c2 hpl hsf hsne]
    refine ih c2 m hrest (by simp at hfuel ⊢; omega) ?_ ?_
    · rw [← List.getLastD_cons c c2 cs]; exact h0
    · rw [← List.getLastD_cons c c2 cs]; exact hs

/-- C6: Property-list fallthrough: along a parent chain of classes with
null first-property pointers, the property sequence of the first class is
exactly the walk from the first non-null first-property pointer found — the
same sequence the owning ancestor class yields, and non-empty as soon as
that start property's next-link is readable; a chain ending with a null
first-property pointer and a null parent pointer yields the empty
sequence. -/
theorem c6_property_fallthrough (p : Process) (M : Module) (c : Nat)
    (cs : List Nat) (fuel a : Nat)
    (hchain : superChain p M c cs) (hfuel : cs.length < fuel) :
    (p.readPtr (addw (cs.getLastD c) M.offsets.uclass_property_link) = some a →
      a ≠ 0 →
      propsList p M fuel c = walkProps p M fuel a ∧
      propsList p M fuel c = propsList p M fuel (cs.getLastD c) ∧
      (∀ nx, p.readPtr (addw a M.offsets.uproperty_property_link_next) = some nx →
        propsList p M fuel c ≠ [])) ∧
    (p.readPtr (addw (cs.getLastD c) M.offsets.uclass_property_link) = some 0 →
      p.readPtr (addw (cs.getLastD c) M.offsets.uclass_super_field) = some 0 →
      propsList p M fuel c = []) := by
  constructor
  · intro ha hne
    have h1 : findStart p M fuel c = some a :=
      findStart_chain_found p M cs c fuel a hchain hfuel ha hne
    have h2 : findStart p M fuel (cs.getLastD c) = some a :=
      findStart_chain_found p M [] (cs.getLastD c) fuel a trivial
        (by simp; omega) ha hne
    refine ⟨by simp only [propsList, h1], by simp only [propsList, h1, h2], fun nx hnx => ?_⟩
    obtain ⟨m, rfl⟩ : ∃ m, fuel = m + 1 := ⟨fuel - 1, by omega⟩
    simp only [propsList, h1]
    cases nx with
    | zero => simp [walkProps, hnx]
    | succ k => simp [walkProps, hnx]
  · intro h0 hs
    have h1 : findStart p M fuel c = none :=
      findStart_chain_none p M cs c fuel hchain hfuel h0 hs
    simp [propsList, h1]

/-- The first element of a list satisfying a predicate, located by its
index, is what `find?` returns. -/
theorem find_first_matching {α : Type} (pp : α → Bool) :
    ∀ (l : List α) (j : Nat) (q : α), l[j]? = some q → pp q = true →
      (∀ k, k < j → ∀ r, l[k]? = some r → pp r = false) →
      l.find? pp = some q := by
  intro l
  induction l with
  | nil => intro j q hj; simp at hj
  | cons x t ih =>
    intro j q hj hq hprev
    cases j with
    | zero =>
      simp only [List.getElem?_cons_zero, Option.some.injEq] at hj
      subst hj
      exact List.find?_cons_of_pos _ hq
    | succ j =>
      have hx : pp x = false := hprev 0 (Nat.succ_pos j) x (by simp)
      rw [List.find?_cons_of_neg _ (by simp [hx])]
      exact ih j q (by simpa using hj) hq
        (fun k hk r hr => hprev (k + 1) (by omega) r (by simpa using hr))

/-- C7: First-match field lookup: `get_field_offset` scans the property
sequence in its (derived-to-base) order and returns the stored byte offset
of the first property whose decoded name matches the requested name — so an
earlier (more derived) property shadows a later same-named one — and
returns `none` when no property of the sequence matches. -/
theorem c7_first_match_shadowing (p : Process) (M : Module) (fuel cl : Nat)
    (name : String) (j : Nat) (q o : Nat)
    (hj : (propsList p M fuel cl)[j]? = some q)
    (hq : nameMatches p M q name = true)
    (hprev : ∀ k, k < j → ∀ r, (propsList p M fuel cl)[k]? = some r →
      nameMatches p M r name = false)
    (hoff : p.readU32 (addw q M.offsets.uproperty_offset_internal) = some o) :
    UClass.get_field_offset p M fuel cl name = some o ∧
    (∀ cl2, (∀ r ∈ propsList p M fuel cl2, nameMatches p M r name = false) →
      UClass.get_field_offset p M fuel cl2 name = none) := by
  have hfind : (propsList p M fuel cl).find? (fun r => nameMatches p M r name) =
      some q :=
    find_first_matching (fun r => nameMatches p M r name)
      (propsList p M fuel cl) j q hj hq hprev
  constructor
  · simp only [UClass.get_field_offset, hfind, hoff]
  · intro cl2 hall
    have hnone : (propsList p M fuel cl2).find?
        (fun r => nameMatches p M r name) = none :=
      List.find?_eq_none.mpr (fun x hx => by simp [hall x hx])
    simp only [UClass.get_field_offset, hnone]

/-! ## Witnesses: the claim theorems applied at concrete inputs -/

/-- C1 witness: a concrete failing resolution keeps its resolved count. -/
theorem c1_resumable_resolution_witness :
    cA.resolved_offsets ≤ (find_offsets procA MW 3 ptrA cA).cache.resolved_offsets :=
  (c1_resumable_resolution procA procA MW MW 3 3 ptrA cA rfl).1

/-- C2 witness: a concrete resolution respects the depth bound. -/
theorem c2_cache_monotonicity_witness :
    (find_offsets procB MW 2 ptrB cA).cache.resolved_offsets ≤ ptrB.depth :=
  (c2_cache_monotonicity 1 1000 ["0x10"] procB MW 2 (fun _ => (none : Option Nat))
    ptrB cA (by decide)).2.2.2.2.2.1

/-- C3 witness: a failed resolution makes a concrete dereference yield
nothing. -/
theorem c3_deref_all_or_nothing_witness :
    (deref procA MW 3 (fun _ => (none : Option Nat)) ptrA cA).1 = none :=
  (c3_deref_all_or_nothing procA MW 3 (fun _ => none) ptrA cA 0).2.1 rfl

/-- C4 witness: decoding the synthetic "Health" pool entry of length 6. -/
theorem c4_name_decoding_witness :
    get_fname procR MW 128 6500 = some (healthBytes.take (384 >>> 6)) :=
  (c4_name_decoding procR MW 128 6500 3 1 20000 384 healthBytes
    (by decide) (by decide) (by decide) rfl rfl rfl rfl
    (by decide) (by decide) (by decide)).1

/-- C5 witness: a concrete displacement of 20 at a match at 100 recovers
the hand-computed absolute address. -/
theorem c5_displacement_recovery_witness :
    resolve_g_engine procD (some 100) none = some (((100 : Int) + 3 + 20 + 4).toNat) :=
  (c5_displacement_recovery procD 100 20 none none (by decide) (by decide)
    (by decide)).1 rfl

/-- C6 witness: class 100 with a null first-property pointer yields its
parent 300's property walk. -/
theorem c6_property_fallthrough_witness :
    propsList procR MW 5 100 = walkProps procR MW 5 6000 :=
  ((c6_property_fallthrough procR MW 100 [300] 5 6000
    ⟨rfl, rfl, by decide, trivial⟩ (by decide)).1 rfl (by decide)).1

/-- C7 witness: the "Health" field of the synthetic class is found at its
stored offset 0xDC0. -/
theorem c7_first_match_shadowing_witness :
    UClass.get_field_offset procR MW 5 400 "Health" = some 3520 :=
  (c7_first_match_shadowing procR MW 5 400 "Health" 1 6500 3520 rfl rfl
    (fun k hk r hr => by
      have hk0 : k = 0 := by omega
      subst hk0
      have h6 : (propsList procR MW 5 400)[0]? = some (6000 : Nat) := rfl
      rw [h6] at hr
      obtain rfl : (6000 : Nat) = r := Option.some.inj hr
      decide)
    rfl).1

/-- C8 witness: after a concrete successful resolution, a second call is a
no-op success with the identical cache. -/
theorem c8_idempotent_fast_path_witness :
    find_offsets procB MW 2 ptrB (find_offsets procB MW 2 ptrB cA).cache =
      ⟨true, (find_offsets procB MW 2 ptrB cA).cache, [], []⟩ :=
  (c8_idempotent_fast_path procB procB MW MW 2 2 ptrB cA (by decide)).2 rfl

/-- C9 witness: the hexadecimal literal of the spec parses to 0x570. -/
theorem c9_literal_specifier_witness :
    parseOffset "0x570" = some 0x570 :=
  (c9_literal_specifier procB MW 2 ptrB 0 0 2000 cA 16 (by decide)).1

/-- C10 witness: a three-specifier path truncated to capacity 2. -/
theorem c10_truncation_and_padding_witness :
    (UnrealPointer.new 2 7 ["a", "b", "c"]).1.depth = min (["a", "b", "c"].length) 2 :=
  (c10_truncation_and_padding 2 7 ["a", "b", "c"] procA MW 3 ptrA cA).1

end Redfall
